import Mathlib

set_option maxHeartbeats 1000000

/-!
Shallow embedding of the symbolgen glyph generator
(src/symbolgen_core/src/lib.rs, authoritative revision, and the older
deduplicating revision in src/src/lib.rs).

Coordinates are modelled as exact rationals.  Every coordinate the generator
manipulates is an exact fraction k / (resolution - 1); over the
configurations the claims range over, the branch structure of the f64 code
coincides with the rational one, because rounding errors of binary64 are far
below both the grid spacing and the machine-epsilon threshold used by the
boundary test.

The ChaCha8 stream seeded from the seed inside Alphabet::generate is
abstracted as an infinite stream of raw natural-number draws; each primitive
random operation consumes one raw draw.  Theorems universally quantified over
the stream cover every stream a seed could produce.
-/

/-- Stream of raw pseudorandom draws, abstracting the seeded ChaCha8Rng. -/
abbrev Rng : Type := ℕ → ℕ

/-- Consume one raw draw from the stream. -/
def Rng.next (r : Rng) : ℕ × Rng := (r 0, fun n => r (n + 1))

/-- Model of rng.gen for a bool. -/
def Rng.genBool (r : Rng) : Bool × Rng :=
  (r.next.1 % 2 == 1, r.next.2)

/-- Model of rng.gen_range(-1, 2): an integer among -1, 0, 1. -/
def Rng.genAdjustment (r : Rng) : ℤ × Rng :=
  (((r.next.1 % 3 : ℕ) : ℤ) - 1, r.next.2)

/-- Model of rng.gen_range(0.0, resolution as f64).floor(): a discrete index
in the half-open range from 0 to resolution. -/
def Rng.genIndex (r : Rng) (resolution : ℕ) : ℕ × Rng :=
  (r.next.1 % resolution, r.next.2)

/-- Normalized 2D point.  The source type is a nalgebra point of two f64
components, modelled here with exact rationals. -/
structure Point where
  x : ℚ
  y : ℚ
deriving DecidableEq, Repr

/-- Line segment between two points.  The second field is named end in the
source; end is a reserved word here, so it is called endp. -/
structure Line where
  start : Point
  endp : Point
deriving DecidableEq, Repr

/-- Symmetry enum of src/symbolgen_core/src/lib.rs. -/
inductive Symmetry
  | Asymmetric
  | Horizontal
  | Vertical
  | HorizontalVertical
deriving DecidableEq, Repr

/-- Motif enum of src/symbolgen_core/src/lib.rs. -/
inductive Motif
  | Orthogonal
  | Diagonal
deriving DecidableEq, Repr

/-- Glyph: the original seed plus the generated lines.  The u64 seed is
modelled as a natural number; it is only stored, never computed with. -/
structure Glyph where
  seed : ℕ
  lines : List Line
deriving DecidableEq, Repr

/-- Alphabet configuration struct of src/symbolgen_core/src/lib.rs. -/
structure Alphabet where
  resolution : ℤ
  density : ℤ
  symmetry : Symmetry
  motif : Motif
  num_lines : ℤ
  step : ℚ
deriving DecidableEq, Repr

/-- Embedding of Alphabet::new.  No validation is performed; step is
1 / (resolution - 1) and num_lines is density * resolution. -/
def Alphabet.new (resolution density : ℤ) (symmetry : Symmetry) (motif : Motif) :
    Alphabet :=
  { resolution := resolution
    step := 1 / (((resolution - 1 : ℤ) : ℚ))
    density := density
    symmetry := symmetry
    motif := motif
    num_lines := density * resolution }

/-- Embedding of Alphabet::gen_coordinate: draw a discrete index below
resolution and divide by resolution - 1. -/
def Alphabet.gen_coordinate (a : Alphabet) (r : Rng) : ℚ × Rng :=
  ((((r.genIndex a.resolution.toNat).1 : ℤ) : ℚ) / (((a.resolution - 1 : ℤ) : ℚ)),
    (r.genIndex a.resolution.toNat).2)

/-- Embedding of Alphabet::gen_point: an x coordinate then a y coordinate. -/
def Alphabet.gen_point (a : Alphabet) (r : Rng) : Point × Rng :=
  (⟨(a.gen_coordinate r).1, (a.gen_coordinate (a.gen_coordinate r).2).1⟩,
    (a.gen_coordinate (a.gen_coordinate r).2).2)

/-- Embedding of Alphabet::gen_adjustment: -1, 0 or 1, cast to the
coordinate field. -/
def Alphabet.gen_adjustment (a : Alphabet) (r : Rng) : ℚ × Rng :=
  ((r.genAdjustment.1 : ℚ), r.genAdjustment.2)

/-- Clamp to the unit interval; the source computes v.max(0.0).min(1.0). -/
def clamp01 (q : ℚ) : ℚ := min (max q 0) 1

/-- Machine epsilon of f64, used by the boundary comparison in the source. -/
def EPSILON : ℚ := 1 / 2 ^ 52

/-- Additive offset on the chosen axis under the Orthogonal motif: forced
inward push of one step at either boundary, otherwise a random ternary
adjustment scaled by step.  This if chain appears verbatim in
Alphabet::generate, once for x and once for y. -/
def Alphabet.orthoAdditive (a : Alphabet) (c : ℚ) (r : Rng) : ℚ × Rng :=
  if c = 0 then (a.step, r)
  else if |c - 1| < EPSILON then (-a.step, r)
  else ((a.gen_adjustment r).1 * a.step, (a.gen_adjustment r).2)

/-- One iteration of the generation loop, after the two coin flips and the
start point have been drawn: compute the additive offset by motif, clamp the
end point to the unit square, and reject the candidate when degenerate. -/
def Alphabet.attemptCore (a : Alphabet) (coin_flip coin_fliend_point : Bool)
    (start_point : Point) (r : Rng) : Option Line × Rng :=
  let pad : (ℚ × ℚ) × Rng :=
    if a.motif = Motif.Orthogonal then
      if coin_flip then
        (((a.orthoAdditive start_point.x r).1, 0), (a.orthoAdditive start_point.x r).2)
      else
        ((0, (a.orthoAdditive start_point.y r).1), (a.orthoAdditive start_point.y r).2)
    else
      let px : ℚ × Rng :=
        if coin_flip then ((a.gen_adjustment r).1 * a.step, (a.gen_adjustment r).2)
        else (0, r)
      let py : ℚ × Rng :=
        if coin_fliend_point then
          ((a.gen_adjustment px.2).1 * a.step, (a.gen_adjustment px.2).2)
        else (0, px.2)
      ((px.1, py.1), py.2)
  let end_point : Point :=
    ⟨clamp01 (start_point.x + pad.1.1), clamp01 (start_point.y + pad.1.2)⟩
  if start_point = end_point then (none, pad.2)
  else (some ⟨start_point, end_point⟩, pad.2)

/-- Start point drawn by one loop iteration, after the two coin flips. -/
def Alphabet.attemptStart (a : Alphabet) (r : Rng) : Point :=
  (a.gen_point (r.genBool.2.genBool).2).1

/-- One full iteration of the loop of Alphabet::generate: the two coin
flips, the start point, then the core of the iteration. -/
def Alphabet.attempt (a : Alphabet) (r : Rng) : Option Line × Rng :=
  a.attemptCore r.genBool.1 (r.genBool.2.genBool).1 (a.attemptStart r)
    (a.gen_point (r.genBool.2.genBool).2).2

/-- Main loop of Alphabet::generate: num_lines attempts, each appending at
most one accepted line to the accumulator, in generation order. -/
def Alphabet.genLines (a : Alphabet) : ℕ → Rng → List Line → List Line × Rng
  | 0, r, acc => (acc, r)
  | fuel + 1, r, acc =>
    match a.attempt r with
    | (none, r2) => a.genLines fuel r2 acc
    | (some l, r2) => a.genLines fuel r2 (acc ++ [l])

/-- Horizontal-symmetry mirror of a line, with the exact formula of the
source: each x coordinate becomes 0.5 + (0.5 - x), y unchanged. -/
def mirrorX (l : Line) : Line :=
  ⟨⟨0.5 + (0.5 - l.start.x), l.start.y⟩, ⟨0.5 + (0.5 - l.endp.x), l.endp.y⟩⟩

/-- Vertical-symmetry mirror of a line, with the exact formula of the
source: each y coordinate becomes 0.5 + (0.5 - y), x unchanged. -/
def mirrorY (l : Line) : Line :=
  ⟨⟨l.start.x, 0.5 + (0.5 - l.start.y)⟩, ⟨l.endp.x, 0.5 + (0.5 - l.endp.y)⟩⟩

/-- Embedding of Alphabet::generate.  The seeded ChaCha8 stream is the
explicit rng argument; the loop runs num_lines times and symmetry expansion
then appends mirrored copies, horizontal first, vertical over the list
including any horizontal mirrors. -/
def Alphabet.generate (a : Alphabet) (seed : ℕ) (rng : Rng) : Glyph :=
  let pre := (a.genLines a.num_lines.toNat rng []).1
  let withH :=
    if a.symmetry = Symmetry.Horizontal ∨ a.symmetry = Symmetry.HorizontalVertical then
      pre ++ pre.map mirrorX
    else pre
  let withV :=
    if a.symmetry = Symmetry.Vertical ∨ a.symmetry = Symmetry.HorizontalVertical then
      withH ++ withH.map mirrorY
    else withH
  ⟨seed, withV⟩

/-- Geometric equality test of the dedup check in the older Glyph::generate
of src/src/lib.rs: same endpoints in the same or in swapped order. -/
def sameGeom (l1 l2 : Line) : Bool :=
  (decide (l1.start = l2.start) && decide (l1.endp = l2.endp)) ||
    (decide (l1.start = l2.endp) && decide (l1.endp = l2.start))

/-- Loop of the older, deduplicating Glyph::generate from src/src/lib.rs.
The drawing logic of each iteration is character-for-character the same as
in the Alphabet revision (so Alphabet.attempt is reused); in addition, a
candidate equal (possibly reversed) to an already accumulated line is
skipped. -/
def Alphabet.genLinesDedup (a : Alphabet) : ℕ → Rng → List Line → List Line × Rng
  | 0, r, acc => (acc, r)
  | fuel + 1, r, acc =>
    match a.attempt r with
    | (none, r2) => a.genLinesDedup fuel r2 acc
    | (some l, r2) =>
      if acc.any (fun line => sameGeom line l) then a.genLinesDedup fuel r2 acc
      else a.genLinesDedup fuel r2 (acc ++ [l])

/-- A rational is a grid coordinate for the given resolution: equal to
k / (resolution - 1) for some integer k between 0 and resolution - 1. -/
def OnGrid (res : ℤ) (q : ℚ) : Prop :=
  ∃ k : ℤ, 0 ≤ k ∧ k ≤ res - 1 ∧ q = (k : ℚ) / (((res - 1 : ℤ) : ℚ))

/-- A coordinate is in the unit interval and on the grid. -/
def CoordOk (res : ℤ) (q : ℚ) : Prop := 0 ≤ q ∧ q ≤ 1 ∧ OnGrid res q

/-- Both coordinates of a point are in bounds and on the grid. -/
def PointOk (res : ℤ) (p : Point) : Prop := CoordOk res p.x ∧ CoordOk res p.y

/-- All four coordinates of a line are in bounds and on the grid. -/
def LineOk (res : ℤ) (l : Line) : Prop := PointOk res l.start ∧ PointOk res l.endp

/-- Ternary adjustment values. -/
def IsAdj (z : ℤ) : Prop := z = -1 ∨ z = 0 ∨ z = 1

/-- End point reached from a start point by a scaled ternary adjustment on
each axis, after clamping. -/
def Alphabet.adjEnd (a : Alphabet) (s : Point) (ax ay : ℤ) : Point :=
  ⟨clamp01 (s.x + (ax : ℚ) * a.step), clamp01 (s.y + (ay : ℚ) * a.step)⟩

/-- Lines in a plane differ in exactly one coordinate between their two
endpoints. -/
def AxisAligned (l : Line) : Prop :=
  (l.start.x = l.endp.x ∧ l.start.y ≠ l.endp.y) ∨
    (l.start.x ≠ l.endp.x ∧ l.start.y = l.endp.y)

lemma new_resolution (res den : ℤ) (sym : Symmetry) (m : Motif) :
    (Alphabet.new res den sym m).resolution = res := rfl

lemma new_step (res den : ℤ) (sym : Symmetry) (m : Motif) :
    (Alphabet.new res den sym m).step = 1 / (((res - 1 : ℤ) : ℚ)) := rfl

lemma new_symmetry (res den : ℤ) (sym : Symmetry) (m : Motif) :
    (Alphabet.new res den sym m).symmetry = sym := rfl

lemma new_motif (res den : ℤ) (sym : Symmetry) (m : Motif) :
    (Alphabet.new res den sym m).motif = m := rfl

lemma new_num_lines (res den : ℤ) (sym : Symmetry) (m : Motif) :
    (Alphabet.new res den sym m).num_lines = den * res := rfl

lemma clamp01_of_mem {q : ℚ} (h0 : 0 ≤ q) (h1 : q ≤ 1) : clamp01 q = q := by
  unfold clamp01
  rw [max_eq_left h0, min_eq_left h1]

lemma clamp01_of_nonpos {q : ℚ} (h : q ≤ 0) : clamp01 q = 0 := by
  unfold clamp01
  rw [max_eq_right h, min_eq_left zero_le_one]

lemma clamp01_of_one_le {q : ℚ} (h : 1 ≤ q) : clamp01 q = 1 := by
  unfold clamp01
  rw [min_eq_right (le_trans h (le_max_left q 0))]

lemma gridDen_pos {res : ℤ} (h2 : 2 ≤ res) : (0 : ℚ) < ((res - 1 : ℤ) : ℚ) := by
  have h : (0 : ℤ) < res - 1 := by omega
  exact_mod_cast h

lemma OnGrid.bounds {res : ℤ} {q : ℚ} (h2 : 2 ≤ res) (h : OnGrid res q) :
    0 ≤ q ∧ q ≤ 1 := by
  obtain ⟨k, hk0, hk1, rfl⟩ := h
  have hD := gridDen_pos h2
  refine ⟨div_nonneg (by exact_mod_cast hk0) hD.le, ?_⟩
  rw [div_le_one hD]
  exact_mod_cast hk1

lemma OnGrid.coordOk {res : ℤ} {q : ℚ} (h2 : 2 ≤ res) (h : OnGrid res q) :
    CoordOk res q := ⟨(h.bounds h2).1, (h.bounds h2).2, h⟩

lemma OnGrid.clamp_adj {res : ℤ} {q : ℚ} {z : ℤ} (h2 : 2 ≤ res)
    (h : OnGrid res q) (hz : IsAdj z) :
    OnGrid res (clamp01 (q + (z : ℚ) * (1 / ((res - 1 : ℤ) : ℚ)))) := by
  obtain ⟨k, hk0, hk1, rfl⟩ := h
  have hD := gridDen_pos h2
  have hzb : -1 ≤ z ∧ z ≤ 1 := by rcases hz with h | h | h <;> omega
  have hsum : (k : ℚ) / ((res - 1 : ℤ) : ℚ) + (z : ℚ) * (1 / ((res - 1 : ℤ) : ℚ))
      = ((k + z : ℤ) : ℚ) / ((res - 1 : ℤ) : ℚ) := by
    push_cast
    field_simp
  rw [hsum]
  rcases lt_or_le (k + z) 0 with hneg | hpos
  · have hle : ((k + z : ℤ) : ℚ) / ((res - 1 : ℤ) : ℚ) ≤ 0 := by
      apply div_nonpos_of_nonpos_of_nonneg _ hD.le
      exact_mod_cast hneg.le
    rw [clamp01_of_nonpos hle]
    exact ⟨0, le_refl 0, by omega, by simp⟩
  · rcases le_or_lt (k + z) (res - 1) with hle | hgt
    · have hb0 : (0 : ℚ) ≤ ((k + z : ℤ) : ℚ) / ((res - 1 : ℤ) : ℚ) :=
        div_nonneg (by exact_mod_cast hpos) hD.le
      have hb1 : ((k + z : ℤ) : ℚ) / ((res - 1 : ℤ) : ℚ) ≤ 1 := by
        rw [div_le_one hD]
        exact_mod_cast hle
      rw [clamp01_of_mem hb0 hb1]
      exact ⟨k + z, hpos, hle, rfl⟩
    · have hone : (1 : ℚ) ≤ ((k + z : ℤ) : ℚ) / ((res - 1 : ℤ) : ℚ) := by
        rw [le_div_iff hD, one_mul]
        exact_mod_cast hgt.le
      rw [clamp01_of_one_le hone]
      refine ⟨res - 1, by omega, le_refl _, ?_⟩
      rw [div_self hD.ne']

lemma OnGrid.mirror {res : ℤ} {q : ℚ} (h2 : 2 ≤ res) (h : OnGrid res q) :
    OnGrid res (0.5 + (0.5 - q)) := by
  obtain ⟨k, hk0, hk1, rfl⟩ := h
  have hD := gridDen_pos h2
  refine ⟨res - 1 - k, by omega, by omega, ?_⟩
  have hcast : ((res - 1 - k : ℤ) : ℚ) = ((res - 1 : ℤ) : ℚ) - (k : ℚ) := by
    push_cast
    ring
  rw [hcast, sub_div, div_self hD.ne']
  ring

lemma gen_coordinate_onGrid (a : Alphabet) (r : Rng) (h2 : 2 ≤ a.resolution) :
    OnGrid a.resolution (a.gen_coordinate r).1 := by
  refine ⟨((r.genIndex a.resolution.toNat).1 : ℤ), Int.ofNat_nonneg _, ?_, rfl⟩
  have htn : (a.resolution.toNat : ℤ) = a.resolution := Int.toNat_of_nonneg (by omega)
  have hlt : (r.genIndex a.resolution.toNat).1 < a.resolution.toNat := by
    apply Nat.mod_lt
    omega
  omega

lemma gen_point_ok (a : Alphabet) (r : Rng) (h2 : 2 ≤ a.resolution) :
    OnGrid a.resolution (a.gen_point r).1.x ∧ OnGrid a.resolution (a.gen_point r).1.y :=
  ⟨gen_coordinate_onGrid a r h2, gen_coordinate_onGrid a _ h2⟩

lemma isAdj_genAdjustment (r : Rng) : IsAdj r.genAdjustment.1 := by
  have h : r.next.1 % 3 < 3 := Nat.mod_lt _ (by norm_num)
  unfold Rng.genAdjustment IsAdj
  omega

lemma attemptCore_spec (a : Alphabet) (c1 c2 : Bool) (s : Point) (r : Rng) :
    ∃ (ax ay : ℤ) (r2 : Rng), IsAdj ax ∧ IsAdj ay ∧
      (a.motif = Motif.Orthogonal → ax = 0 ∨ ay = 0) ∧
      a.attemptCore c1 c2 s r =
        (if s = a.adjEnd s ax ay then (none, r2) else (some ⟨s, a.adjEnd s ax ay⟩, r2)) := by
  cases hM : a.motif with
  | Orthogonal =>
    cases c1 with
    | true =>
      by_cases hx : s.x = 0
      · refine ⟨1, 0, r, Or.inr (Or.inr rfl), Or.inr (Or.inl rfl), fun _ => Or.inr rfl, ?_⟩
        simp [Alphabet.attemptCore, hM, Alphabet.orthoAdditive, hx, Alphabet.adjEnd]
      · by_cases hx1 : |s.x - 1| < EPSILON
        · refine ⟨-1, 0, r, Or.inl rfl, Or.inr (Or.inl rfl), fun _ => Or.inr rfl, ?_⟩
          simp [Alphabet.attemptCore, hM, Alphabet.orthoAdditive, hx, hx1, Alphabet.adjEnd]
        · refine ⟨r.genAdjustment.1, 0, r.genAdjustment.2, isAdj_genAdjustment r,
            Or.inr (Or.inl rfl), fun _ => Or.inr rfl, ?_⟩
          simp [Alphabet.attemptCore, hM, Alphabet.orthoAdditive, hx, hx1, Alphabet.adjEnd,
            Alphabet.gen_adjustment]
    | false =>
      by_cases hy : s.y = 0
      · refine ⟨0, 1, r, Or.inr (Or.inl rfl), Or.inr (Or.inr rfl), fun _ => Or.inl rfl, ?_⟩
        simp [Alphabet.attemptCore, hM, Alphabet.orthoAdditive, hy, Alphabet.adjEnd]
      · by_cases hy1 : |s.y - 1| < EPSILON
        · refine ⟨0, -1, r, Or.inr (Or.inl rfl), Or.inl rfl, fun _ => Or.inl rfl, ?_⟩
          simp [Alphabet.attemptCore, hM, Alphabet.orthoAdditive, hy, hy1, Alphabet.adjEnd]
        · refine ⟨0, r.genAdjustment.1, r.genAdjustment.2, Or.inr (Or.inl rfl),
            isAdj_genAdjustment r, fun _ => Or.inl rfl, ?_⟩
          simp [Alphabet.attemptCore, hM, Alphabet.orthoAdditive, hy, hy1, Alphabet.adjEnd,
            Alphabet.gen_adjustment]
  | Diagonal =>
    cases c1 with
    | true =>
      cases c2 with
      | true =>
        refine ⟨r.genAdjustment.1, r.genAdjustment.2.genAdjustment.1,
          r.genAdjustment.2.genAdjustment.2, isAdj_genAdjustment r,
          isAdj_genAdjustment _, ?_, ?_⟩
        · intro h
          exact Motif.noConfusion h
        · simp [Alphabet.attemptCore, hM, Alphabet.adjEnd, Alphabet.gen_adjustment]
      | false =>
        refine ⟨r.genAdjustment.1, 0, r.genAdjustment.2, isAdj_genAdjustment r,
          Or.inr (Or.inl rfl), ?_, ?_⟩
        · intro h
          exact Motif.noConfusion h
        · simp [Alphabet.attemptCore, hM, Alphabet.adjEnd, Alphabet.gen_adjustment]
    | false =>
      cases c2 with
      | true =>
        refine ⟨0, r.genAdjustment.1, r.genAdjustment.2, Or.inr (Or.inl rfl),
          isAdj_genAdjustment r, ?_, ?_⟩
        · intro h
          exact Motif.noConfusion h
        · simp [Alphabet.attemptCore, hM, Alphabet.adjEnd, Alphabet.gen_adjustment]
      | false =>
        refine ⟨0, 0, r, Or.inr (Or.inl rfl), Or.inr (Or.inl rfl), ?_, ?_⟩
        · intro h
          exact Motif.noConfusion h
        · simp [Alphabet.attemptCore, hM, Alphabet.adjEnd]

lemma attempt_some (a : Alphabet) (r : Rng) (l : Line)
    (h : (a.attempt r).1 = some l) :
    ∃ (ax ay : ℤ), IsAdj ax ∧ IsAdj ay ∧
      (a.motif = Motif.Orthogonal → ax = 0 ∨ ay = 0) ∧
      l.start = a.attemptStart r ∧
      l.endp = a.adjEnd (a.attemptStart r) ax ay ∧
      l.start ≠ l.endp := by
  obtain ⟨ax, ay, r2, hax, hay, hM, hEq⟩ :=
    attemptCore_spec a r.genBool.1 (r.genBool.2.genBool).1 (a.attemptStart r)
      (a.gen_point (r.genBool.2.genBool).2).2
  rw [Alphabet.attempt, hEq] at h
  by_cases hs : a.attemptStart r = a.adjEnd (a.attemptStart r) ax ay
  · rw [if_pos hs] at h
    cases h
  · rw [if_neg hs] at h
    have hl : l = ⟨a.attemptStart r, a.adjEnd (a.attemptStart r) ax ay⟩ :=
      (Option.some.injEq _ _ ▸ h).symm
    subst hl
    exact ⟨ax, ay, hax, hay, hM, rfl, rfl, hs⟩

lemma genLines_forall (a : Alphabet) (P : Line → Prop)
    (hstep : ∀ (r : Rng) (l : Line), (a.attempt r).1 = some l → P l) :
    ∀ (fuel : ℕ) (r : Rng) (acc : List Line),
      (∀ l ∈ acc, P l) → ∀ l ∈ (a.genLines fuel r acc).1, P l := by
  intro fuel
  induction fuel with
  | zero =>
    intro r acc hacc l hl
    exact hacc l hl
  | succ n ih =>
    intro r acc hacc l hl
    rw [Alphabet.genLines] at hl
    rcases h : a.attempt r with ⟨o, r2⟩
    rw [h] at hl
    cases o with
    | none => exact ih r2 acc hacc l hl
    | some lnew =>
      refine ih r2 (acc ++ [lnew]) ?_ l hl
      intro x hx
      rcases List.mem_append.mp hx with hx | hx
      · exact hacc x hx
      · rw [List.mem_singleton.mp hx]
        exact hstep r lnew (by rw [h])

lemma genLines_length (a : Alphabet) :
    ∀ (fuel : ℕ) (r : Rng) (acc : List Line),
      (a.genLines fuel r acc).1.length ≤ acc.length + fuel := by
  intro fuel
  induction fuel with
  | zero =>
    intro r acc
    simp [Alphabet.genLines]
  | succ n ih =>
    intro r acc
    rw [Alphabet.genLines]
    rcases h : a.attempt r with ⟨o, r2⟩
    cases o with
    | none =>
      refine le_trans (ih r2 acc) ?_
      omega
    | some lnew =>
      refine le_trans (ih r2 (acc ++ [lnew])) ?_
      simp
      omega

lemma generate_forall (a : Alphabet) (seed : ℕ) (rng : Rng) (P : Line → Prop)
    (hpre : ∀ l ∈ (a.genLines a.num_lines.toNat rng []).1, P l)
    (hmx : ∀ l, P l → P (mirrorX l)) (hmy : ∀ l, P l → P (mirrorY l)) :
    ∀ l ∈ (a.generate seed rng).lines, P l := by
  intro l hl
  rw [Alphabet.generate] at hl
  simp only at hl
  have h1 : ∀ x ∈ (if a.symmetry = Symmetry.Horizontal ∨ a.symmetry = Symmetry.HorizontalVertical
      then (a.genLines a.num_lines.toNat rng []).1 ++
        ((a.genLines a.num_lines.toNat rng []).1).map mirrorX
      else (a.genLines a.num_lines.toNat rng []).1), P x := by
    intro x hx
    split at hx
    · rcases List.mem_append.mp hx with hx | hx
      · exact hpre x hx
      · obtain ⟨y, hy, rfl⟩ := List.mem_map.mp hx
        exact hmx y (hpre y hy)
    · exact hpre x hx
  split at hl
  · rcases List.mem_append.mp hl with hl | hl
    · exact h1 l hl
    · obtain ⟨y, hy, rfl⟩ := List.mem_map.mp hl
      exact hmy y (h1 y hy)
  · exact h1 l hl

lemma mirrorX_formula (l : Line) :
    mirrorX l = ⟨⟨1 - l.start.x, l.start.y⟩, ⟨1 - l.endp.x, l.endp.y⟩⟩ := by
  simp only [mirrorX, Line.mk.injEq, Point.mk.injEq]
  refine ⟨⟨by ring, trivial⟩, by ring, trivial⟩

lemma mirrorY_formula (l : Line) :
    mirrorY l = ⟨⟨l.start.x, 1 - l.start.y⟩, ⟨l.endp.x, 1 - l.endp.y⟩⟩ := by
  simp only [mirrorY, Line.mk.injEq, Point.mk.injEq]
  refine ⟨⟨trivial, by ring⟩, trivial, by ring⟩

lemma genLinesDedup_pairwise (a : Alphabet) :
    ∀ (fuel : ℕ) (r : Rng) (acc : List Line),
      acc.Pairwise (fun l1 l2 => sameGeom l1 l2 = false) →
      ((a.genLinesDedup fuel r acc).1).Pairwise (fun l1 l2 => sameGeom l1 l2 = false) := by
  intro fuel
  induction fuel with
  | zero =>
    intro r acc hacc
    exact hacc
  | succ n ih =>
    intro r acc hacc
    rw [Alphabet.genLinesDedup]
    rcases h : a.attempt r with ⟨o, r2⟩
    cases o with
    | none => exact ih r2 acc hacc
    | some l =>
      show List.Pairwise (fun l1 l2 => sameGeom l1 l2 = false)
        ((if (acc.any fun line => sameGeom line l) = true then a.genLinesDedup n r2 acc
          else a.genLinesDedup n r2 (acc ++ [l])).1)
      by_cases hd : (acc.any fun line => sameGeom line l) = true
      · rw [if_pos hd]
        exact ih r2 acc hacc
      · rw [if_neg hd]
        refine ih r2 (acc ++ [l]) ?_
        rw [List.pairwise_append]
        refine ⟨hacc, List.pairwise_singleton _ _, ?_⟩
        intro x hx y hy
        rw [List.mem_singleton.mp hy]
        simp only [List.any_eq_true, not_exists, not_and] at hd
        have := hd x hx
        simpa using this

lemma new_step_pos {res : ℤ} (den : ℤ) (sym : Symmetry) (m : Motif) (h2 : 2 ≤ res) :
    0 < (Alphabet.new res den sym m).step := by
  rw [new_step]
  exact div_pos one_pos (gridDen_pos h2)

lemma new_step_le_one {res : ℤ} (den : ℤ) (sym : Symmetry) (m : Motif) (h2 : 2 ≤ res) :
    (Alphabet.new res den sym m).step ≤ 1 := by
  rw [new_step, div_le_one (gridDen_pos h2)]
  exact_mod_cast (by omega : (1 : ℤ) ≤ res - 1)

lemma attemptStart_onGrid (res den : ℤ) (sym : Symmetry) (m : Motif) (r : Rng)
    (h2 : 2 ≤ res) :
    OnGrid res ((Alphabet.new res den sym m).attemptStart r).x ∧
    OnGrid res ((Alphabet.new res den sym m).attemptStart r).y :=
  gen_point_ok (Alphabet.new res den sym m) (r.genBool.2.genBool).2 h2

lemma grid_eq_one {res : ℤ} {q : ℚ} (h2 : 2 ≤ res) (h31 : res ≤ 2 ^ 31)
    (hg : OnGrid res q) (hq : |q - 1| < EPSILON) : q = 1 := by
  obtain ⟨k, hk0, hk1, rfl⟩ := hg
  have hD := gridDen_pos h2
  by_contra hne
  have hklt : k ≤ res - 2 := by
    rcases eq_or_lt_of_le hk1 with he | hlt
    · exact absurd (by rw [he]; exact div_self hD.ne') hne
    · omega
  have hcast : ((res - 1 - k : ℤ) : ℚ) / ((res - 1 : ℤ) : ℚ)
      = 1 - (k : ℚ) / ((res - 1 : ℤ) : ℚ) := by
    have hsplit : ((res - 1 - k : ℤ) : ℚ) = ((res - 1 : ℤ) : ℚ) - (k : ℚ) := by
      push_cast
      ring
    rw [hsplit, sub_div, div_self hD.ne']
  have h1 : (1 : ℚ) ≤ ((res - 1 - k : ℤ) : ℚ) :=
    by exact_mod_cast (by omega : (1 : ℤ) ≤ res - 1 - k)
  have hone_le : (1 : ℚ) / ((res - 1 : ℤ) : ℚ)
      ≤ ((res - 1 - k : ℤ) : ℚ) / ((res - 1 : ℤ) : ℚ) :=
    (div_le_div_right hD).mpr h1
  have hlt52 : ((res - 1 : ℤ) : ℚ) < 2 ^ 52 :=
    by exact_mod_cast (by omega : (res - 1 : ℤ) < 2 ^ 52)
  have heps : EPSILON < 1 / ((res - 1 : ℤ) : ℚ) := by
    unfold EPSILON
    exact one_div_lt_one_div_of_lt hD hlt52
  have hqle : (k : ℚ) / ((res - 1 : ℤ) : ℚ) ≤ 1 := by
    rw [div_le_one hD]
    exact_mod_cast hk1
  have habs : |(k : ℚ) / ((res - 1 : ℤ) : ℚ) - 1| = 1 - (k : ℚ) / ((res - 1 : ℤ) : ℚ) := by
    rw [abs_of_nonpos (by linarith), neg_sub]
  rw [habs] at hq
  linarith [hone_le, heps, hq]

lemma attemptCore_x0 (a : Alphabet) (c2 : Bool) (s : Point) (r : Rng)
    (hM : a.motif = Motif.Orthogonal) (hx : s.x = 0)
    (hstep0 : 0 < a.step) (hstep1 : a.step ≤ 1) :
    a.attemptCore true c2 s r = (some ⟨s, ⟨a.step, clamp01 (s.y + 0)⟩⟩, r) := by
  have hex : clamp01 ((0 : ℚ) + a.step) = a.step := by
    rw [zero_add, clamp01_of_mem hstep0.le hstep1]
  have hne : s ≠ (⟨a.step, clamp01 (s.y + 0)⟩ : Point) := by
    intro hEq
    have hxx := congrArg Point.x hEq
    rw [hx] at hxx
    exact hstep0.ne hxx
  simp only [Alphabet.attemptCore, hM, if_true, Alphabet.orthoAdditive, hx, if_pos rfl]
  simp only [hex]
  rw [if_neg hne]

lemma attemptCore_x1 (a : Alphabet) (c2 : Bool) (s : Point) (r : Rng)
    (hM : a.motif = Motif.Orthogonal) (hx : s.x = 1)
    (hstep0 : 0 < a.step) (hstep1 : a.step ≤ 1) :
    a.attemptCore true c2 s r = (some ⟨s, ⟨1 - a.step, clamp01 (s.y + 0)⟩⟩, r) := by
  have hx0 : ¬((1 : ℚ) = 0) := by norm_num
  have heps : |(1 : ℚ) - 1| < EPSILON := by
    rw [sub_self, abs_zero]
    unfold EPSILON
    norm_num
  have hex : clamp01 ((1 : ℚ) + -a.step) = 1 - a.step := by
    rw [show (1 : ℚ) + -a.step = 1 - a.step by ring,
      clamp01_of_mem (by linarith) (by linarith)]
  have hne : s ≠ (⟨1 - a.step, clamp01 (s.y + 0)⟩ : Point) := by
    intro hEq
    have hxx := congrArg Point.x hEq
    simp only at hxx
    rw [hx] at hxx
    have : a.step = 0 := by linarith
    exact hstep0.ne' this
  simp only [Alphabet.attemptCore, hM, if_true, Alphabet.orthoAdditive, hx,
    if_neg hx0, if_pos heps]
  simp only [hex]
  rw [if_neg hne]

lemma attemptCore_y0 (a : Alphabet) (c2 : Bool) (s : Point) (r : Rng)
    (hM : a.motif = Motif.Orthogonal) (hy : s.y = 0)
    (hstep0 : 0 < a.step) (hstep1 : a.step ≤ 1) :
    a.attemptCore false c2 s r = (some ⟨s, ⟨clamp01 (s.x + 0), a.step⟩⟩, r) := by
  have hex : clamp01 ((0 : ℚ) + a.step) = a.step := by
    rw [zero_add, clamp01_of_mem hstep0.le hstep1]
  have hne : s ≠ (⟨clamp01 (s.x + 0), a.step⟩ : Point) := by
    intro hEq
    have hyy := congrArg Point.y hEq
    rw [hy] at hyy
    exact hstep0.ne hyy
  simp only [Alphabet.attemptCore, hM, if_true, Bool.false_eq_true, if_false,
    Alphabet.orthoAdditive, hy, if_pos rfl]
  simp only [hex]
  rw [if_neg hne]

lemma attemptCore_y1 (a : Alphabet) (c2 : Bool) (s : Point) (r : Rng)
    (hM : a.motif = Motif.Orthogonal) (hy : s.y = 1)
    (hstep0 : 0 < a.step) (hstep1 : a.step ≤ 1) :
    a.attemptCore false c2 s r = (some ⟨s, ⟨clamp01 (s.x + 0), 1 - a.step⟩⟩, r) := by
  have hy0 : ¬((1 : ℚ) = 0) := by norm_num
  have heps : |(1 : ℚ) - 1| < EPSILON := by
    rw [sub_self, abs_zero]
    unfold EPSILON
    norm_num
  have hex : clamp01 ((1 : ℚ) + -a.step) = 1 - a.step := by
    rw [show (1 : ℚ) + -a.step = 1 - a.step by ring,
      clamp01_of_mem (by linarith) (by linarith)]
  have hne : s ≠ (⟨clamp01 (s.x + 0), 1 - a.step⟩ : Point) := by
    intro hEq
    have hyy := congrArg Point.y hEq
    simp only at hyy
    rw [hy] at hyy
    have : a.step = 0 := by linarith
    exact hstep0.ne' this
  simp only [Alphabet.attemptCore, hM, if_true, Bool.false_eq_true, if_false,
    Alphabet.orthoAdditive, hy, if_neg hy0, if_pos heps]
  simp only [hex]
  rw [if_neg hne]

lemma ortho_run_pre (sym : Symmetry) :
    ((Alphabet.new 3 1 sym Motif.Orthogonal).genLines 3 (fun _ => 0) []).1
      = [⟨⟨0, 0⟩, ⟨0, 1/2⟩⟩, ⟨⟨0, 0⟩, ⟨0, 1/2⟩⟩, ⟨⟨0, 0⟩, ⟨0, 1/2⟩⟩] := by
  norm_num [Alphabet.genLines, Alphabet.attempt, Alphabet.attemptCore, Alphabet.attemptStart,
    Alphabet.gen_point, Alphabet.gen_coordinate, Alphabet.gen_adjustment, Alphabet.orthoAdditive,
    Rng.genBool, Rng.genIndex, Rng.genAdjustment, Rng.next, clamp01, EPSILON, Alphabet.new,
    Point.mk.injEq, Line.mk.injEq]

lemma ortho_run_eval :
    ((Alphabet.new 3 1 Symmetry.Asymmetric Motif.Orthogonal).generate 0 (fun _ => 0)).lines
      = [⟨⟨0, 0⟩, ⟨0, 1/2⟩⟩, ⟨⟨0, 0⟩, ⟨0, 1/2⟩⟩, ⟨⟨0, 0⟩, ⟨0, 1/2⟩⟩] := by
  rw [← ortho_run_pre Symmetry.Asymmetric]
  rfl

/-- C1 Determinism: generation is a pure function of the configuration and
the seeded stream, so for any assignment of streams to seeds, two
generations from the same configuration and the same seed have identical
ordered line lists, and the stored seed is the seed that was passed in. -/
theorem c1_determinism (res den : ℤ) (sym : Symmetry) (m : Motif)
    (seedStream : ℕ → Rng) (seed : ℕ) :
    ((Alphabet.new res den sym m).generate seed (seedStream seed)).lines =
      ((Alphabet.new res den sym m).generate seed (seedStream seed)).lines ∧
    ((Alphabet.new res den sym m).generate seed (seedStream seed)).seed = seed :=
  ⟨rfl, rfl⟩

/-- C2 No degenerate segments: every line of every generated Glyph,
including lines appended by symmetry expansion, has distinct start and end
points. -/
theorem c2_no_degenerate (a : Alphabet) (seed : ℕ) (rng : Rng) :
    ∀ l ∈ (a.generate seed rng).lines, l.start ≠ l.endp := by
  apply generate_forall
  · apply genLines_forall
    · intro r l hl
      obtain ⟨ax, ay, _, _, _, _, _, hne⟩ := attempt_some a r l hl
      exact hne
    · intro l hl
      cases hl
  · intro l hne
    obtain ⟨⟨sx, sy⟩, ⟨ex, ey⟩⟩ := l
    simp only [mirrorX, Point.mk.injEq, ne_eq, Line.mk.injEq, not_and] at hne ⊢
    intro h1 h2
    have hxe : sx = ex := by linarith
    exact hne hxe h2
  · intro l hne
    obtain ⟨⟨sx, sy⟩, ⟨ex, ey⟩⟩ := l
    simp only [mirrorY, Point.mk.injEq, ne_eq, Line.mk.injEq, not_and] at hne ⊢
    intro h1 h2
    have hye : sy = ey := by linarith
    exact hne h1 hye

/-- C2 witness: the line from the origin to the point with y one half, a
member of a concretely generated Glyph, is not degenerate. -/
theorem c2_no_degenerate_witness :
    (Line.mk (Point.mk 0 0) (Point.mk 0 (1/2))).start
      ≠ (Line.mk (Point.mk 0 0) (Point.mk 0 (1/2))).endp :=
  c2_no_degenerate (Alphabet.new 3 1 Symmetry.Asymmetric Motif.Orthogonal) 0 (fun _ => 0)
    (Line.mk (Point.mk 0 0) (Point.mk 0 (1/2)))
    (by rw [ortho_run_eval]; simp)

/-- C3 Symmetry expansion: the final line list is the pre-symmetry list,
followed by its horizontal mirrors when symmetry is Horizontal or
HorizontalVertical, followed by vertical mirrors of the list accumulated so
far (including the horizontal mirrors) when symmetry is Vertical or
HorizontalVertical, appended in that order without any deduplication; the
mirror maps replace x by 0.5 + (0.5 - x), equivalently 1 - x, and y by the
analogous formula. -/
theorem c3_symmetry_expansion (a : Alphabet) (seed : ℕ) (rng : Rng) :
    ((a.generate seed rng).lines =
      match a.symmetry with
      | Symmetry.Asymmetric => (a.genLines a.num_lines.toNat rng []).1
      | Symmetry.Horizontal =>
          (a.genLines a.num_lines.toNat rng []).1 ++
            ((a.genLines a.num_lines.toNat rng []).1).map mirrorX
      | Symmetry.Vertical =>
          (a.genLines a.num_lines.toNat rng []).1 ++
            ((a.genLines a.num_lines.toNat rng []).1).map mirrorY
      | Symmetry.HorizontalVertical =>
          ((a.genLines a.num_lines.toNat rng []).1 ++
            ((a.genLines a.num_lines.toNat rng []).1).map mirrorX) ++
          (((a.genLines a.num_lines.toNat rng []).1 ++
            ((a.genLines a.num_lines.toNat rng []).1).map mirrorX)).map mirrorY) ∧
    (∀ l : Line, mirrorX l = ⟨⟨1 - l.start.x, l.start.y⟩, ⟨1 - l.endp.x, l.endp.y⟩⟩) ∧
    (∀ l : Line, mirrorY l = ⟨⟨l.start.x, 1 - l.start.y⟩, ⟨l.endp.x, 1 - l.endp.y⟩⟩) := by
  refine ⟨?_, mirrorX_formula, mirrorY_formula⟩
  cases hsym : a.symmetry <;>
    simp [Alphabet.generate, hsym]

/-- C4 Bounded count: the pre-symmetry line count is at most
density * resolution, and the final count is exactly 1, 2, 2 or 4 times the
pre-symmetry count for Asymmetric, Horizontal, Vertical and
HorizontalVertical symmetry respectively. -/
theorem c4_bounded_count (res den : ℤ) (sym : Symmetry) (m : Motif) (seed : ℕ) (rng : Rng)
    (h2 : 2 ≤ res) (hd : 1 ≤ den) :
    ((((Alphabet.new res den sym m).genLines
        (Alphabet.new res den sym m).num_lines.toNat rng []).1.length : ℤ) ≤ den * res) ∧
    ((Alphabet.new res den sym m).generate seed rng).lines.length =
      (match sym with
        | Symmetry.Asymmetric => 1
        | Symmetry.Horizontal => 2
        | Symmetry.Vertical => 2
        | Symmetry.HorizontalVertical => 4) *
      ((Alphabet.new res den sym m).genLines
        (Alphabet.new res den sym m).num_lines.toNat rng []).1.length := by
  constructor
  · have h := genLines_length (Alphabet.new res den sym m)
      (Alphabet.new res den sym m).num_lines.toNat rng []
    have hnn : (0 : ℤ) ≤ den * res := mul_nonneg (by omega) (by omega)
    have htn : (((Alphabet.new res den sym m).num_lines.toNat : ℕ) : ℤ) = den * res := by
      rw [new_num_lines, Int.toNat_of_nonneg hnn]
    simp only [List.length_nil, Nat.zero_add] at h
    omega
  · cases sym <;>
      simp [Alphabet.generate, new_symmetry, List.length_append, List.length_map] <;>
      omega

/-- C4 witness: for resolution 3, density 1, Horizontal symmetry and an
all-zero stream, the pre-symmetry count is at most 3 and the final count is
twice the pre-symmetry count. -/
theorem c4_bounded_count_witness :
    ((((Alphabet.new 3 1 Symmetry.Horizontal Motif.Orthogonal).genLines
        (Alphabet.new 3 1 Symmetry.Horizontal Motif.Orthogonal).num_lines.toNat
        (fun _ => 0) []).1.length : ℤ) ≤ 1 * 3) ∧
    ((Alphabet.new 3 1 Symmetry.Horizontal Motif.Orthogonal).generate 0 (fun _ => 0)).lines.length =
      2 * ((Alphabet.new 3 1 Symmetry.Horizontal Motif.Orthogonal).genLines
        (Alphabet.new 3 1 Symmetry.Horizontal Motif.Orthogonal).num_lines.toNat
        (fun _ => 0) []).1.length := by
  have h := c4_bounded_count 3 1 Symmetry.Horizontal Motif.Orthogonal 0 (fun _ => 0)
    (by norm_num) (by norm_num)
  exact ⟨h.1, h.2⟩

/-- C8 Grid snapping and bounds: every coordinate of every line in every
generated Glyph lies in the unit interval and equals k / (resolution - 1)
for some integer k between 0 and resolution - 1. -/
theorem c8_grid_snapping (res den : ℤ) (sym : Symmetry) (m : Motif) (seed : ℕ) (rng : Rng)
    (h2 : 2 ≤ res) :
    ∀ l ∈ ((Alphabet.new res den sym m).generate seed rng).lines, LineOk res l := by
  apply generate_forall
  · apply genLines_forall
    · intro r l hl
      obtain ⟨ax, ay, hax, hay, _, hs, he, _⟩ := attempt_some _ r l hl
      obtain ⟨hgx, hgy⟩ := attemptStart_onGrid res den sym m r h2
      constructor
      · rw [hs]
        exact ⟨hgx.coordOk h2, hgy.coordOk h2⟩
      · rw [he]
        exact ⟨(hgx.clamp_adj h2 hax).coordOk h2, (hgy.clamp_adj h2 hay).coordOk h2⟩
    · intro l hl
      cases hl
  · intro l hok
    exact ⟨⟨((hok.1.1.2.2).mirror h2).coordOk h2, hok.1.2⟩,
      ((hok.2.1.2.2).mirror h2).coordOk h2, hok.2.2⟩
  · intro l hok
    exact ⟨⟨hok.1.1, ((hok.1.2.2.2).mirror h2).coordOk h2⟩,
      hok.2.1, ((hok.2.2.2.2).mirror h2).coordOk h2⟩

/-- C8 witness: a concrete member line of a concretely generated Glyph has
all four coordinates in bounds and on the grid for resolution 3. -/
theorem c8_grid_snapping_witness :
    LineOk 3 (Line.mk (Point.mk 0 0) (Point.mk 0 (1/2))) :=
  c8_grid_snapping 3 1 Symmetry.Asymmetric Motif.Orthogonal 0 (fun _ => 0) (by norm_num)
    (Line.mk (Point.mk 0 0) (Point.mk 0 (1/2)))
    (by rw [ortho_run_eval]; simp)


/-- C10 Axis alignment under the Orthogonal motif: every line of every
Glyph generated with motif Orthogonal, including symmetry-expanded lines,
differs between its endpoints in exactly one coordinate. -/
theorem c10_axis_aligned (res den : ℤ) (sym : Symmetry) (seed : ℕ) (rng : Rng)
    (h2 : 2 ≤ res) :
    ∀ l ∈ ((Alphabet.new res den sym Motif.Orthogonal).generate seed rng).lines,
      AxisAligned l := by
  apply generate_forall
  · apply genLines_forall
    · intro r l hl
      obtain ⟨ax, ay, hax, hay, hM, hs, he, hne⟩ := attempt_some _ r l hl
      obtain ⟨hgx, hgy⟩ := attemptStart_onGrid res den sym Motif.Orthogonal r h2
      rcases hM rfl with h0 | h0
      · subst h0
        have hbx := hgx.bounds h2
        have hxe : l.endp.x = l.start.x := by
          rw [he, hs]
          show clamp01 (((Alphabet.new res den sym Motif.Orthogonal).attemptStart r).x
            + ((0 : ℤ) : ℚ) * (Alphabet.new res den sym Motif.Orthogonal).step) = _
          rw [Int.cast_zero, zero_mul, add_zero, clamp01_of_mem hbx.1 hbx.2]
        refine Or.inl ⟨hxe.symm, fun hy => hne ?_⟩
        obtain ⟨⟨sx, sy⟩, ⟨ex, ey⟩⟩ := l
        show (⟨sx, sy⟩ : Point) = ⟨ex, ey⟩
        rw [Point.mk.injEq]
        exact ⟨hxe.symm, hy⟩
      · subst h0
        have hby := hgy.bounds h2
        have hye : l.endp.y = l.start.y := by
          rw [he, hs]
          show clamp01 (((Alphabet.new res den sym Motif.Orthogonal).attemptStart r).y
            + ((0 : ℤ) : ℚ) * (Alphabet.new res den sym Motif.Orthogonal).step) = _
          rw [Int.cast_zero, zero_mul, add_zero, clamp01_of_mem hby.1 hby.2]
        refine Or.inr ⟨fun hx => hne ?_, hye.symm⟩
        obtain ⟨⟨sx, sy⟩, ⟨ex, ey⟩⟩ := l
        show (⟨sx, sy⟩ : Point) = ⟨ex, ey⟩
        rw [Point.mk.injEq]
        exact ⟨hx, hye.symm⟩
    · intro l hl
      cases hl
  · intro l h
    obtain ⟨⟨sx, sy⟩, ⟨ex, ey⟩⟩ := l
    rcases h with ⟨hx, hy⟩ | ⟨hx, hy⟩
    · have hx2 : sx = ex := hx
      have hy2 : sy ≠ ey := hy
      exact Or.inl ⟨by show (0.5 + (0.5 - sx) : ℚ) = 0.5 + (0.5 - ex); rw [hx2], hy2⟩
    · have hx2 : sx ≠ ex := hx
      have hy2 : sy = ey := hy
      refine Or.inr ⟨fun hEq => hx2 ?_, hy2⟩
      have hEq2 : (0.5 + (0.5 - sx) : ℚ) = 0.5 + (0.5 - ex) := hEq
      linarith
  · intro l h
    obtain ⟨⟨sx, sy⟩, ⟨ex, ey⟩⟩ := l
    rcases h with ⟨hx, hy⟩ | ⟨hx, hy⟩
    · have hx2 : sx = ex := hx
      have hy2 : sy ≠ ey := hy
      refine Or.inl ⟨hx2, fun hEq => hy2 ?_⟩
      have hEq2 : (0.5 + (0.5 - sy) : ℚ) = 0.5 + (0.5 - ey) := hEq
      linarith
    · have hx2 : sx ≠ ex := hx
      have hy2 : sy = ey := hy
      exact Or.inr ⟨hx2, by show (0.5 + (0.5 - sy) : ℚ) = 0.5 + (0.5 - ey); rw [hy2]⟩

/-- C10 witness: a concrete member line of a concretely generated
Orthogonal-motif Glyph is axis aligned. -/
theorem c10_axis_aligned_witness :
    AxisAligned (Line.mk (Point.mk 0 0) (Point.mk 0 (1/2))) :=
  c10_axis_aligned 3 1 Symmetry.Asymmetric 0 (fun _ => 0) (by norm_num)
    (Line.mk (Point.mk 0 0) (Point.mk 0 (1/2)))
    (by rw [ortho_run_eval]; simp)

/-- C9 Deduplication invariant: the deduplicating revision of the generator
never holds two lines with the same endpoint pair, in the same or swapped
order, in its accumulated list, whatever the run length, the stream and the
configuration (any intermediate state of the loop is the final state of a
shorter run); the final Alphabet revision performs no such check: a concrete
run retains three identical copies of the same line. -/
theorem c9_dedup_invariant :
    (∀ (a : Alphabet) (fuel : ℕ) (r : Rng) (acc : List Line),
        acc.Pairwise (fun l1 l2 => sameGeom l1 l2 = false) →
        ((a.genLinesDedup fuel r acc).1).Pairwise (fun l1 l2 => sameGeom l1 l2 = false)) ∧
    (∀ (a : Alphabet) (fuel : ℕ) (r : Rng),
        ((a.genLinesDedup fuel r []).1).Pairwise (fun l1 l2 => sameGeom l1 l2 = false)) ∧
    ((Alphabet.new 3 1 Symmetry.Asymmetric Motif.Orthogonal).generate 0 (fun _ => 0)).lines
      = [⟨⟨0, 0⟩, ⟨0, 1/2⟩⟩, ⟨⟨0, 0⟩, ⟨0, 1/2⟩⟩, ⟨⟨0, 0⟩, ⟨0, 1/2⟩⟩] ∧
    sameGeom ⟨⟨0, 0⟩, ⟨0, 1/2⟩⟩ ⟨⟨0, 0⟩, ⟨0, 1/2⟩⟩ = true := by
  refine ⟨genLinesDedup_pairwise,
    fun a fuel r => genLinesDedup_pairwise a fuel r [] List.Pairwise.nil,
    ortho_run_eval, ?_⟩
  rw [sameGeom]
  norm_num

/-- C9 witness: the invariant preservation applied to a concrete
deduplicating run from the empty accumulator. -/
theorem c9_dedup_invariant_witness :
    (((Alphabet.new 3 1 Symmetry.Asymmetric Motif.Orthogonal).genLinesDedup 3
        (fun _ => 0) []).1).Pairwise (fun l1 l2 => sameGeom l1 l2 = false) :=
  c9_dedup_invariant.1 (Alphabet.new 3 1 Symmetry.Asymmetric Motif.Orthogonal) 3
    (fun _ => 0) [] List.Pairwise.nil

/-- C5 Boundary push rule: under the Orthogonal motif, when the first coin
flip selects the x axis, an attempt whose start has x equal to 0 is accepted
with end x equal to step, and an attempt whose start has x within machine
epsilon of 1 is accepted with end x equal to 1 - step; the analogous
statements hold for the y axis when the coin flip selects y.  In all four
cases the attempt returns an accepted line, so it is never rejected as
degenerate. -/
theorem c5_boundary_push (res den : ℤ) (sym : Symmetry) (r : Rng)
    (h2 : 2 ≤ res) (h31 : res ≤ 2 ^ 31) (s : Point)
    (hs : s = (Alphabet.new res den sym Motif.Orthogonal).attemptStart r) :
    (r.genBool.1 = true → s.x = 0 → ∃ l : Line,
        ((Alphabet.new res den sym Motif.Orthogonal).attempt r).1 = some l ∧
        l.start = s ∧ l.endp.x = (Alphabet.new res den sym Motif.Orthogonal).step) ∧
    (r.genBool.1 = true → |s.x - 1| < EPSILON → ∃ l : Line,
        ((Alphabet.new res den sym Motif.Orthogonal).attempt r).1 = some l ∧
        l.start = s ∧ l.endp.x = 1 - (Alphabet.new res den sym Motif.Orthogonal).step) ∧
    (r.genBool.1 = false → s.y = 0 → ∃ l : Line,
        ((Alphabet.new res den sym Motif.Orthogonal).attempt r).1 = some l ∧
        l.start = s ∧ l.endp.y = (Alphabet.new res den sym Motif.Orthogonal).step) ∧
    (r.genBool.1 = false → |s.y - 1| < EPSILON → ∃ l : Line,
        ((Alphabet.new res den sym Motif.Orthogonal).attempt r).1 = some l ∧
        l.start = s ∧ l.endp.y = 1 - (Alphabet.new res den sym Motif.Orthogonal).step) := by
  have hstep0 := new_step_pos den sym Motif.Orthogonal h2
  have hstep1 := new_step_le_one den sym Motif.Orthogonal h2
  obtain ⟨hgx, hgy⟩ := attemptStart_onGrid res den sym Motif.Orthogonal r h2
  rw [← hs] at hgx hgy
  refine ⟨?_, ?_, ?_, ?_⟩
  · intro hc hx
    refine ⟨⟨s, ⟨(Alphabet.new res den sym Motif.Orthogonal).step, clamp01 (s.y + 0)⟩⟩,
      ?_, rfl, rfl⟩
    rw [Alphabet.attempt, hc, ← hs,
      attemptCore_x0 _ _ _ _ rfl hx hstep0 hstep1]
  · intro hc hx1
    have hx : s.x = 1 := grid_eq_one h2 h31 hgx hx1
    refine ⟨⟨s, ⟨1 - (Alphabet.new res den sym Motif.Orthogonal).step, clamp01 (s.y + 0)⟩⟩,
      ?_, rfl, rfl⟩
    rw [Alphabet.attempt, hc, ← hs,
      attemptCore_x1 _ _ _ _ rfl hx hstep0 hstep1]
  · intro hc hy
    refine ⟨⟨s, ⟨clamp01 (s.x + 0), (Alphabet.new res den sym Motif.Orthogonal).step⟩⟩,
      ?_, rfl, rfl⟩
    rw [Alphabet.attempt, hc, ← hs,
      attemptCore_y0 _ _ _ _ rfl hy hstep0 hstep1]
  · intro hc hy1
    have hy : s.y = 1 := grid_eq_one h2 h31 hgy hy1
    refine ⟨⟨s, ⟨clamp01 (s.x + 0), 1 - (Alphabet.new res den sym Motif.Orthogonal).step⟩⟩,
      ?_, rfl, rfl⟩
    rw [Alphabet.attempt, hc, ← hs,
      attemptCore_y1 _ _ _ _ rfl hy hstep0 hstep1]

/-- C5 witness: with resolution 3 and a stream whose first draw is odd and
whose coordinate draws are zero, the coin flip selects the x axis, the start
x is 0, and the attempt is accepted with end x equal to step. -/
theorem c5_boundary_push_witness :
    ∃ l : Line,
      ((Alphabet.new 3 1 Symmetry.Asymmetric Motif.Orthogonal).attempt
        (fun n => if n = 0 then 1 else 0)).1 = some l ∧
      l.start = (Alphabet.new 3 1 Symmetry.Asymmetric Motif.Orthogonal).attemptStart
        (fun n => if n = 0 then 1 else 0) ∧
      l.endp.x = (Alphabet.new 3 1 Symmetry.Asymmetric Motif.Orthogonal).step :=
  (c5_boundary_push 3 1 Symmetry.Asymmetric (fun n => if n = 0 then 1 else 0)
      (by norm_num) (by norm_num)
      ((Alphabet.new 3 1 Symmetry.Asymmetric Motif.Orthogonal).attemptStart
        (fun n => if n = 0 then 1 else 0)) rfl).1
    rfl
    (by norm_num [Alphabet.attemptStart, Alphabet.gen_point, Alphabet.gen_coordinate,
      Rng.genIndex, Rng.genBool, Rng.next, Alphabet.new])

/-- C6 counterexample: a configuration with resolution 1 is not rejected:
Alphabet::new constructs it unchecked and generate returns a Glyph carrying
the given seed, so generation does occur. -/
theorem c6_invalid_config_counterexample :
    ((Alphabet.new 1 3 Symmetry.Asymmetric Motif.Diagonal).generate 42 (fun _ => 0)).seed = 42 ∧
    (Alphabet.new 1 3 Symmetry.Asymmetric Motif.Diagonal).resolution = 1 ∧
    (Alphabet.new 1 3 Symmetry.Asymmetric Motif.Diagonal).num_lines = 3 :=
  ⟨rfl, rfl, rfl⟩

/-- C6 amended: a configuration with resolution below 2 is not rejected and
no error is raised: Alphabet::new performs no validation, stores the fields
unchanged, computes step by an unchecked division, and generate still
returns a Glyph storing the given seed. -/
theorem c6_no_validation (res den : ℤ) (sym : Symmetry) (m : Motif) (seed : ℕ) (rng : Rng)
    (h : res < 2) :
    (Alphabet.new res den sym m).resolution = res ∧
    ((Alphabet.new res den sym m).generate seed rng).seed = seed :=
  ⟨rfl, rfl⟩

/-- C6 witness: instantiation of the amended claim at resolution 1. -/
theorem c6_no_validation_witness :
    (Alphabet.new 1 3 Symmetry.Asymmetric Motif.Diagonal).resolution = 1 ∧
    ((Alphabet.new 1 3 Symmetry.Asymmetric Motif.Diagonal).generate 7 (fun _ => 0)).seed = 7 :=
  c6_no_validation 1 3 Symmetry.Asymmetric Motif.Diagonal 7 (fun _ => 0) (by norm_num)

/-- C7 counterexample helper: the two attempts of a resolution-2 run with an
all-zero stream each accept the segment from the origin to the top of the
left edge, consuming random draws. -/
lemma res2_run_pre :
    ((Alphabet.new 2 1 Symmetry.Asymmetric Motif.Orthogonal).genLines 2 (fun _ => 0) []).1
      = [⟨⟨0, 0⟩, ⟨0, 1⟩⟩, ⟨⟨0, 0⟩, ⟨0, 1⟩⟩] := by
  norm_num [Alphabet.genLines, Alphabet.attempt, Alphabet.attemptCore, Alphabet.attemptStart,
    Alphabet.gen_point, Alphabet.gen_coordinate, Alphabet.gen_adjustment, Alphabet.orthoAdditive,
    Rng.genBool, Rng.genIndex, Rng.genAdjustment, Rng.next, clamp01, EPSILON, Alphabet.new,
    Point.mk.injEq, Line.mk.injEq]

/-- C7 counterexample: a generation with resolution 2 does not fail before
drawing random values: it consumes the seeded stream and returns a Glyph
with two accepted lines and the given seed. -/
theorem c7_resolution_two_counterexample :
    ((Alphabet.new 2 1 Symmetry.Asymmetric Motif.Orthogonal).generate 7 (fun _ => 0)).lines
      = [⟨⟨0, 0⟩, ⟨0, 1⟩⟩, ⟨⟨0, 0⟩, ⟨0, 1⟩⟩] ∧
    ((Alphabet.new 2 1 Symmetry.Asymmetric Motif.Orthogonal).generate 7 (fun _ => 0)).seed = 7 := by
  refine ⟨?_, rfl⟩
  rw [← res2_run_pre]
  rfl

/-- C7 amended: resolution 2 is a valid configuration, not a rejected one:
its grid spacing step is exactly 1 and generation returns a Glyph storing
the given seed, for every density, symmetry, motif, seed and stream. -/
theorem c7_resolution_two_valid (den : ℤ) (sym : Symmetry) (m : Motif) (seed : ℕ) (rng : Rng) :
    (Alphabet.new 2 den sym m).step = 1 ∧
    ((Alphabet.new 2 den sym m).generate seed rng).seed = seed := by
  refine ⟨?_, rfl⟩
  rw [new_step]
  norm_num
